import Mathlib

/-!
Shallow embedding of the defi-guard-threat-intel-osint ingestion pipeline.

Strings are modelled as lists of characters; Python floats are modelled as
exact rationals; Python datetimes are modelled as naturals ordered by time.
Each definition transliterates the corresponding Python function from the
repository (file and function named in its doc comment).
-/

namespace DefiGuard

/-! ## String utilities (Python `in`, `lower`, `upper`, `strip`, `title`, `istitle`, `replace`) -/

/-- Python `needle.startswith` on char lists: `starts needle hay` is true iff
`needle` is a prefix of `hay`. -/
def starts : List Char → List Char → Bool
  | [], _ => true
  | _ :: _, [] => false
  | a :: as, b :: bs => a == b && starts as bs

/-- Python substring test `needle in hay` on char lists. -/
def hasSub (hay needle : List Char) : Bool :=
  match hay with
  | [] => needle.isEmpty
  | _ :: t => starts needle hay || hasSub t needle

/-- Python `str.lower()` (ASCII). -/
def lowerAll (s : List Char) : List Char := s.map Char.toLower

/-- Python `str.upper()` (ASCII). -/
def upperAll (s : List Char) : List Char := s.map Char.toUpper

/-- ASCII whitespace, as matched by Python `str.strip()` and regex class `\s`. -/
def isSpaceChar (c : Char) : Bool :=
  c == ' ' || c == '\t' || c == '\n' || c == '\r' || c == '\x0b' || c == '\x0c'

/-- Python `str.strip()`. -/
def stripStr (s : List Char) : List Char :=
  ((s.dropWhile isSpaceChar).reverse.dropWhile isSpaceChar).reverse

/-- Python `str.replace(old, new)` with `new = ""`: delete every
non-overlapping occurrence of `old`, scanning left to right.  The scan
consumes at least one character per step, so the explicit `fuel` (started at
the string length) never runs out; it only makes the recursion structural. -/
def replaceDelGo (old : List Char) : Nat → List Char → List Char
  | _, [] => []
  | 0, s => s
  | fuel + 1, c :: t =>
      if starts old (c :: t) then replaceDelGo old fuel (List.drop (old.length - 1) t)
      else c :: replaceDelGo old fuel t

/-- Python `str.replace(old, "")` on char lists. -/
def replaceDel (s old : List Char) : List Char := replaceDelGo old s.length s

/-- ASCII cased character (Python treats letters as cased). -/
def isCased (c : Char) : Bool := c.isAlpha

/-- Python `str.title()`: a letter is uppercased when the previous character is
not a letter, lowercased otherwise (ASCII). -/
def pyTitleAux : Bool → List Char → List Char
  | _, [] => []
  | prevAlpha, c :: t =>
      (if prevAlpha then c.toLower else c.toUpper) :: pyTitleAux (isCased c) t

/-- Python `str.title()`. -/
def pyTitle (s : List Char) : List Char := pyTitleAux false s

/-- Python `str.istitle()` constraint scan: uppercase letters may only follow a
non-cased character, lowercase letters only a cased one. -/
def pyIsTitleAux : Bool → List Char → Bool
  | _, [] => true
  | prevCased, c :: t =>
      (if c.isUpper then !prevCased else if c.isLower then prevCased else true)
        && pyIsTitleAux (isCased c) t

/-- Python `str.istitle()`: the scan holds and at least one cased character occurs. -/
def pyIsTitle (s : List Char) : Bool :=
  pyIsTitleAux false s && s.any isCased

/-- Python regex word character `\w` (ASCII). -/
def isWordChar (c : Char) : Bool := c.isAlphanum || c == '_'

/-- Whether an optional neighbouring character counts as a word character
(the edge of the string counts as a non-word character for `\b`). -/
def wordOpt : Option Char → Bool
  | none => false
  | some c => isWordChar c

/-- Regex `\b P \b` matched at the head of `s` with left neighbour `prev`:
`p` must be a prefix of `s`, with a word boundary on both sides. -/
def wwAt (p : List Char) (prev : Option Char) (s : List Char) : Bool :=
  match p with
  | [] => false
  | c0 :: _ =>
      (wordOpt prev != isWordChar c0)
        && starts p s
        && (wordOpt (p.getLast?) != wordOpt ((List.drop p.length s).head?))

/-- `re.search(r'\b' + p + r'\b', s)` for a literal pattern `p`: scan every
position of `s`, tracking the previous character for the left boundary. -/
def wwSearchAux (p : List Char) (prev : Option Char) : List Char → Bool
  | [] => false
  | c :: t => wwAt p prev (c :: t) || wwSearchAux p (some c) t

/-- Whole-word search of literal `p` inside `s`. -/
def wwSearch (p s : List Char) : Bool := wwSearchAux p none s

/-! ## Risk level (`app/models/threat_intel.py`, `RiskLevel`) -/

/-- `RiskLevel` enum: low < medium < high < critical. -/
inductive RiskLevel where
  | low
  | medium
  | high
  | critical
  deriving DecidableEq, Repr

/-- Ordinal rank of a risk level, for the total order used by the spec. -/
def RiskLevel.rank : RiskLevel → Nat
  | .low => 0
  | .medium => 1
  | .high => 2
  | .critical => 3

/-! ## `BaseScraper.assess_risk_level` (`app/scrapers/base_scraper.py`, lines 93-123) -/

/-- `critical_keywords` of `assess_risk_level`. -/
def critical_keywords : List (List Char) :=
  ["critical".data, "emergency".data, "immediate".data, "urgent".data, "exploit".data]

/-- `high_keywords` of `assess_risk_level`. -/
def high_keywords : List (List Char) :=
  ["hack".data, "attack".data, "vulnerability".data, "breach".data, "stolen".data, "drained".data]

/-- `medium_keywords` of `assess_risk_level`. -/
def medium_keywords : List (List Char) :=
  ["warning".data, "risk".data, "issue".data, "concern".data, "potential".data]

/-- `any(keyword in text for keyword in kws)`. -/
def containsAny (text : List Char) (kws : List (List Char)) : Bool :=
  kws.any (fun k => hasSub text k)

/-- The keyword-fallback tail of `assess_risk_level` (lines 116-123). -/
def keywordRisk (text : List Char) : RiskLevel :=
  if containsAny text critical_keywords then .critical
  else if containsAny text high_keywords then .high
  else if containsAny text medium_keywords then .medium
  else .low

/-- `BaseScraper.assess_risk_level`.  `amount_lost` is an optional float
(here: rational); `if amount_lost:` is Python truthiness, i.e. present and
nonzero.  The `keywords` parameter is accepted and (as in the source) never
used by the decision.  When the amount is truthy but below 100000 the
function falls through to the keyword checks. -/
def assess_risk_level (amount_lost : Option ℚ) (keywords : List (List Char))
    (title description : List Char) : RiskLevel :=
  let _ := keywords
  let text := lowerAll (title ++ (' ' :: description))
  match amount_lost with
  | some a =>
      if a ≠ 0 then
        if a ≥ 10000000 then .critical
        else if a ≥ 1000000 then .high
        else if a ≥ 100000 then .medium
        else keywordRisk text
      else keywordRisk text
  | none => keywordRisk text

/-! ## `BaseScraper.extract_amount_lost` (`app/scrapers/base_scraper.py`, lines 125-159)

The four regex patterns share the shape
`\$?([\d,]+(?:\.\d{2})?)` followed (except for the bare pattern) by
`\s*(?:LONGWORD|SHORTLETTER)`.  Matching is modelled position by position,
exactly as `re.finditer` enumerates leftmost non-overlapping matches.  Greedy
subpattern matching needs no backtracking here: the character classes of
consecutive subpatterns are disjoint, and when the optional `\.\d{2}` is
present but the suffix then fails, the suffix also fails without it (it would
have to match at the unconsumed dot). -/

/-- The four patterns, in the order of the source's `patterns` list:
million, billion, thousand, bare. -/
inductive AmtPat where
  | million
  | billion
  | thousand
  | bare
  deriving DecidableEq, Repr

/-- Suffix alternation of each pattern: `(?:million|m)`, `(?:billion|b)`,
`(?:thousand|k)`; the bare pattern has no suffix. -/
def sfxSpec : AmtPat → Option (List Char × Char)
  | .million => some ("million".data, 'm')
  | .billion => some ("billion".data, 'b')
  | .thousand => some ("thousand".data, 'k')
  | .bare => none

/-- Regex class `[\d,]`. -/
def isDigitComma (c : Char) : Bool := c.isDigit || c == ','

/-- Numeric value of a digit string (most significant first). -/
def digitsToNat (ds : List Char) : Nat :=
  ds.foldl (fun a c => 10 * a + (c.toNat - 48)) 0

/-- `float(match.group(1).replace(',', ''))` (lines 141-142): commas are
removed from the captured number; an empty remainder raises `ValueError`
(modelled as `none`); a captured 2-digit decimal part contributes exactly. -/
def parseVal (run : List Char) (dec : Option (Char × Char)) : Option ℚ :=
  let digits := run.filter (fun c => c != ',')
  match dec with
  | some (d1, d2) =>
      some ((digitsToNat digits : ℚ) + ((10 * (d1.toNat - 48) + (d2.toNat - 48) : ℕ) : ℚ) / 100)
  | none => if digits.isEmpty then none else some ((digitsToNat digits : ℚ))

/-- The optional `(?:\.\d{2})?` at the head of `s2`: a dot followed by
exactly two digits (greedy; skipping it can never rescue a later suffix
match, since the suffix would then have to match at the unconsumed dot). -/
def decProbe (s2 : List Char) : Option (Char × Char) :=
  match s2 with
  | a :: d1 :: d2 :: _ =>
      if a == '.' && d1.isDigit && d2.isDigit then some (d1, d2) else none
  | _ => none

/-- The trailing `\s*(?:LONG|SHORT)` of a suffixed pattern, matched at `s3`:
greedy whitespace, then the long word tried before the single letter (the
alternatives start with non-space letters, so no backtracking arises).
Returns the consumed text. -/
def sfxMatch (spec : List Char × Char) (s3 : List Char) : Option (List Char) :=
  let ws := s3.takeWhile isSpaceChar
  let s4 := s3.drop ws.length
  if starts spec.1 s4 then some (ws ++ spec.1)
  else if s4.head? == some spec.2 then some (ws ++ [spec.2])
  else none

/-- The characters the optional decimal group consumed. -/
def decCharsOf (dec : Option (Char × Char)) : List Char :=
  match dec with
  | some (d1, d2) => ['.', d1, d2]
  | none => []

/-- Outcome of a suffixed pattern once the suffix engages at `s3`: the match
text extends `run ++ decChars` by whatever the suffix consumed, or the whole
position fails. -/
def sfxBranch (spec : List Char × Char) (s3 run decChars : List Char)
    (dec : Option (Char × Char)) : Option (List Char × Option ℚ) :=
  match sfxMatch spec s3 with
  | some tail2 => some (run ++ decChars ++ tail2, parseVal run dec)
  | none => none

/-- Dispatch on whether the pattern carries a suffix (the bare pattern ends
right after the captured group). -/
def patBranch (sfx : Option (List Char × Char)) (s3 run decChars : List Char)
    (dec : Option (Char × Char)) : Option (List Char × Option ℚ) :=
  match sfx with
  | none => some (run ++ decChars, parseVal run dec)
  | some spec => sfxBranch spec s3 run decChars dec

/-- Match one pattern at the head of `s1`, `\$?` already consumed.  Returns
the matched text (continuing `group(0)`) and the parsed `group(1)` value. -/
def tryBody (pat : AmtPat) (s1 : List Char) : Option (List Char × Option ℚ) :=
  let run := s1.takeWhile isDigitComma
  if run.isEmpty then none
  else
    let s2 := s1.drop run.length
    let dec := decProbe s2
    let decChars := decCharsOf dec
    let s3 := s2.drop decChars.length
    patBranch (sfxSpec pat) s3 run decChars dec

/-- Match one pattern at the head of `s` (including the optional greedy
`\$?`; when `$` is present but the rest fails, the dollar-free alternative
would have to start `[\d,]+` at the `$` itself and fails too). -/
def tryMatchAt (pat : AmtPat) (s : List Char) : Option (List Char × Option ℚ) :=
  match s with
  | c :: t =>
      if c == '$' then (tryBody pat t).map (fun p => (c :: p.1, p.2))
      else tryBody pat (c :: t)
  | [] => none

/-- Multiplier selection from `match.group(0)` (lines 145-150): substring
checks for billion/b, then million/m, then thousand/k. -/
def multOf (g0 : List Char) : ℚ :=
  if hasSub g0 ("billion".data) || hasSub g0 ['b'] then 1000000000
  else if hasSub g0 ("million".data) || hasSub g0 ['m'] then 1000000
  else if hasSub g0 ("thousand".data) || hasSub g0 ['k'] then 1000
  else 1

/-- Scan of `re.finditer` matches of one pattern over the lowercased text
(lines 137-157): each match's scaled amount is returned if `> 1000`,
otherwise the scan continues after the match (matches are non-overlapping);
on a parse failure the scan also continues (the `except: continue`).  Every
step consumes at least one character, so the explicit `fuel` (started at the
text length) never runs out; it only makes the recursion structural. -/
def scanPatGo (pat : AmtPat) : Nat → List Char → Option ℚ
  | _, [] => none
  | 0, _ :: _ => none
  | fuel + 1, c :: t =>
      match tryMatchAt pat (c :: t) with
      | some (g0, some v) =>
          if v * multOf g0 > 1000 then some (v * multOf g0)
          else scanPatGo pat fuel (t.drop (g0.length - 1))
      | some (g0, none) => scanPatGo pat fuel (t.drop (g0.length - 1))
      | none => scanPatGo pat fuel t

/-- First acceptable `finditer` match of one pattern over the text. -/
def scanPat (pat : AmtPat) (s : List Char) : Option ℚ := scanPatGo pat s.length s

/-- `BaseScraper.extract_amount_lost`: patterns are tried in the source's
order million → billion → thousand → bare over `text.lower()`; the first
scan yielding an amount wins. -/
def extract_amount_lost (text : List Char) : Option ℚ :=
  let tl := lowerAll text
  match scanPat .million tl with
  | some a => some a
  | none =>
      match scanPat .billion tl with
      | some a => some a
      | none =>
          match scanPat .thousand tl with
          | some a => some a
          | none => scanPat .bare tl

/-- Modelled from the spec (section 4.3 / 8): the same extraction with the
pattern order the spec describes, billion → million → thousand → bare.
Used only to compare the spec's stated order against the source's order. -/
def extract_amount_lost_specOrder (text : List Char) : Option ℚ :=
  let tl := lowerAll text
  match scanPat .billion tl with
  | some a => some a
  | none =>
      match scanPat .million tl with
      | some a => some a
      | none =>
          match scanPat .thousand tl with
          | some a => some a
          | none => scanPat .bare tl

/-! ## `ProtocolClassifier` (`app/services/protocol_classifier.py`)

`known_protocols` is a Python `set` literal; its iteration order is
implementation-defined.  It is modelled as the list in written order; every
theorem below is insensitive to the order of set iteration (at most one
element can match in each instance used). -/

/-- `ProtocolClassifier.known_protocols` (lines 16-35), in written order. -/
def known_protocols : List (List Char) :=
  [("uniswap").data, ("compound").data, ("aave").data, ("makerdao").data, ("curve").data,
   ("yearn").data, ("synthetix").data,
   ("balancer").data, ("sushiswap").data, ("pancakeswap").data, ("1inch").data,
   ("kyber").data, ("bancor").data,
   ("cream").data, ("alpha").data, ("harvest").data, ("pickle").data, ("badger").data,
   ("convex").data, ("frax").data,
   ("olympus").data, ("wonderland").data, ("tomb").data, ("spell").data, ("rari").data,
   ("fuse").data, ("iron").data,
   ("mirror").data, ("anchor").data, ("terra").data, ("polygon").data, ("arbitrum").data,
   ("optimism").data,
   ("avalanche").data, ("fantom").data, ("bsc").data, ("harmony").data, ("chainlink").data,
   ("dydx").data,
   ("gmx").data, ("benqi").data, ("trader joe").data, ("platypus").data, ("joe").data,
   ("vector").data,
   ("euler").data, ("morpho").data, ("radiant").data, ("geist").data, ("hundred").data,
   ("fortress").data,
   ("zunami").data, ("alexlab").data, ("force bridge").data, ("vesu").data, ("cork").data,
   ("marinade").data,
   ("cetus").data, ("chainge").data, ("lndfi").data, ("brincfi").data, ("mobiusdao").data,
   ("celsius").data,
   ("voyager").data, ("nomad").data, ("ronin").data, ("axie").data, ("poly network").data,
   ("thorchain").data,
   ("multichain").data, ("anyswap").data, ("wormhole").data, ("beanstalk").data,
   ("rari capital").data,
   ("qubit").data, ("nerve").data, ("cream finance").data, ("badgerdao").data,
   ("vesper").data, ("indexed").data,
   ("alpha homora").data, ("value defi").data, ("dforce").data, ("belt finance").data,
   ("bunny").data,
   ("autofarm").data, ("acryptos").data, ("viperswap").data, ("sphynx").data, ("dodo").data,
   ("mdex").data,
   ("mooniswap").data, ("deversifi").data, ("loopring").data, ("immutable x").data,
   ("hermez").data,
   ("polygon hermez").data, ("arbitrum one").data, ("optimism mainnet").data, ("metis").data,
   ("moonbeam").data, ("moonriver").data, ("celo").data, ("fuse network").data,
   ("xdai").data, ("gnosis").data]

/-- Stable insertion of a string into a list sorted by descending length. -/
def insertByLen (x : List Char) : List (List Char) → List (List Char)
  | [] => [x]
  | y :: ys => if x.length > y.length then x :: y :: ys else y :: insertByLen x ys

/-- `sorted(known_protocols, key=len, reverse=True)`: stable sort by
descending length. -/
def sortByLenDesc : List (List Char) → List (List Char)
  | [] => []
  | x :: xs => insertByLen x (sortByLenDesc xs)

/-- `ProtocolClassifier._fallback_classification` (lines 174-192): first a
whole-word (`\b`-bounded) search of each known protocol over the combined
lowercased text, protocols ordered by descending name length; then a plain
substring search over the lowercased title. -/
def fallback_classification (title description : List Char) : Option (List Char) :=
  let text := lowerAll (title ++ (' ' :: description))
  match (sortByLenDesc known_protocols).find? (fun p => wwSearch p text) with
  | some p => some (pyTitle p)
  | none =>
      let title_lower := lowerAll title
      match (sortByLenDesc known_protocols).find? (fun p => hasSub title_lower p) with
      | some p => some (pyTitle p)
      | none => none

/-- The suffix-stripping of `_validate_protocol` (lines 128-130):
lowercase and strip, delete every occurrence of "protocol" and "finance"
then strip, delete every occurrence of "defi" and "network" then strip. -/
def protocol_clean (p : List Char) : List Char :=
  let pc0 := lowerAll (stripStr p)
  let pc1 := stripStr (replaceDel (replaceDel pc0 (("protocol").data)) (("finance").data))
  stripStr (replaceDel (replaceDel pc1 (("defi").data)) (("network").data))

/-- The per-known-protocol disjunction of the partial-match loop
(lines 137-146). -/
def loopMatch (pc known : List Char) : Bool :=
  pc == known
    || (decide (known.length > 3) && hasSub pc known
          && decide (pc.length ≤ known.length + 5))
    || (decide (pc.length > 3) && hasSub known pc
          && decide (known.length ≤ pc.length + 5))

/-- `special_cases` (lines 149-155), in insertion order. -/
def special_cases : List (List Char × List Char) :=
  [(("uni").data, ("uniswap").data), (("sushi").data, ("sushiswap").data),
   (("pancake").data, ("pancakeswap").data), (("trader").data, ("trader joe").data),
   (("joe").data, ("trader joe").data)]

/-- `defi_indicators` (line 162). -/
def defi_indicators : List (List Char) :=
  [("swap").data, ("dex").data, ("lending").data, ("dao").data, ("yield").data,
   ("farm").data, ("bridge").data, ("vault").data, ("pool").data]

/-- `ProtocolClassifier._validate_protocol` (lines 122-172). -/
def validate_protocol (protocol : List Char) : Option (List Char) :=
  if protocol.isEmpty || upperAll protocol == ("NONE").data
      || upperAll protocol == ("NULL").data then none
  else
    let pc := protocol_clean protocol
    if known_protocols.contains pc then some (pyTitle pc)
    else
      match known_protocols.find? (fun known => loopMatch pc known) with
      | some known => some (pyTitle known)
      | none =>
          match special_cases.find?
              (fun sf => hasSub pc sf.1 && known_protocols.contains sf.2) with
          | some sf => some (pyTitle sf.2)
          | none =>
              if defi_indicators.any (fun ind => hasSub pc ind) then
                some (pyTitle (stripStr protocol))
              else if pyIsTitle protocol && decide (protocol.length > 3)
                  && !([("None").data, ("The").data, ("This").data,
                       ("That").data].contains protocol) then
                some (stripStr protocol)
              else none

/-- `ProtocolClassifier.classify_protocol` on the deterministic path: the
source delegates to `_fallback_classification` whenever the OpenAI client is
absent or all retries fail; the external AI call itself is not modelled. -/
def classify_protocol (title description : List Char) : Option (List Char) :=
  fallback_classification title description

/-- `threat_keywords` of `is_threat_intel_relevant` (lines 211-220), in
written order; the source list contains `exploit` twice and each list entry
found in the text contributes 1 to the score. -/
def threat_keywords : List (List Char) :=
  [("hack").data, ("exploit").data, ("attack").data, ("breach").data,
   ("vulnerability").data, ("drained").data,
   ("stolen").data, ("loss").data, ("rug pull").data, ("exit scam").data,
   ("flash loan").data, ("oracle").data,
   ("smart contract").data, ("security").data, ("incident").data,
   ("compromised").data, ("malicious").data,
   ("phishing").data, ("private key").data, ("admin key").data, ("backdoor").data,
   ("bug").data, ("rekt").data,
   ("exploit").data, ("drain").data, ("manipulation").data, ("sandwich").data,
   ("mev").data, ("front-run").data,
   ("back-run").data, ("slippage").data, ("liquidation").data, ("bad debt").data,
   ("insolvency").data,
   ("pause").data, ("emergency").data, ("halt").data, ("freeze").data,
   ("blacklist").data, ("corrupted").data,
   ("unable to withdraw").data, ("funds trapped").data, ("stuck").data, ("locked").data]

/-- `threat_score` (line 223): the number of `threat_keywords` entries that
occur in the combined lowercased text. -/
def threat_score (title description : List Char) : Nat :=
  (threat_keywords.filter (fun k => hasSub (lowerAll (title ++ (' ' :: description))) k)).length

/-- Result triple of `is_threat_intel_relevant`. -/
structure RelevanceResult where
  is_relevant : Bool
  protocol : Option (List Char)
  confidence : ℚ
  deriving DecidableEq, Repr

/-- `ProtocolClassifier.is_threat_intel_relevant` (lines 194-245), on the
deterministic classification path; float arithmetic is modelled by exact
rationals (every comparison in reach of the code is decided identically). -/
def is_threat_intel_relevant (title description : List Char) : RelevanceResult :=
  match classify_protocol title description with
  | none => ⟨false, none, 0⟩
  | some protocol =>
      let score := threat_score title description
      let title_mentions_protocol := hasSub (lowerAll title) (lowerAll protocol)
      let protocol_boost : ℚ := if title_mentions_protocol then 2/10 else 0
      let base_confidence : ℚ := 3/10
      let threat_confidence : ℚ :=
        if (score : ℚ) * (1/10) ≤ 5/10 then (score : ℚ) * (1/10) else 5/10
      let confidence := base_confidence + threat_confidence + protocol_boost
      let has_threat_indicators := decide (score > 0)
      ⟨decide (confidence ≥ 4/10) && has_threat_indicators, some protocol, confidence⟩

/-! ## Ingestion (`app/scrapers/manager.py`, `ScraperManager._save_items_to_db`)

Datetimes are modelled as naturals ordered by time; floats as rationals.
The SQLAlchemy session (`autocommit=False, autoflush=False`) is modelled
explicitly: updates to already-persisted records are visible to later
queries in the same batch (identity map), pending `db.add` records are not
(no autoflush); `db.commit()` publishes everything at once, `db.rollback()`
discards everything, after which the function re-raises. -/

/-- `ThreatIntelItem` (`app/models/threat_intel.py`): a scraped candidate. -/
structure ThreatIntelItem where
  id : Option (List Char)
  title : List Char
  description : List Char
  protocol_name : Option (List Char)
  risk_level : RiskLevel
  source_url : List Char
  source_name : List Char
  published_date : Option Nat
  scraped_date : Nat
  tags : List (List Char)
  amount_lost : Option ℚ
  attack_type : Option (List Char)
  blockchain : Option (List Char)
  severity_score : Option ℚ
  is_verified : Bool
  additional_data : Option (List (List Char × List Char))
  deriving DecidableEq, Repr

/-- `ThreatIntelDB` row (`app/database/database.py`): a corpus record. -/
structure ThreatIntelDBRec where
  id : List Char
  title : List Char
  description : List Char
  protocol_name : Option (List Char)
  risk_level : RiskLevel
  source_url : List Char
  source_name : List Char
  published_date : Option Nat
  scraped_date : Nat
  tags : List (List Char)
  amount_lost : Option ℚ
  attack_type : Option (List Char)
  blockchain : Option (List Char)
  severity_score : Option ℚ
  is_verified : Bool
  additional_data : Option (List (List Char × List Char))
  deriving DecidableEq, Repr

/-- `hashlib.md5(str(item.source_url).encode()).hexdigest()` (line 135):
the digest is an arbitrary deterministic function of the URL; only that
determinism matters to the claims, so the URL itself stands in for it. -/
def item_id (source_url : List Char) : List Char := source_url

/-- `db.query(...).filter(source_url == url).first()` (lines 138-140). -/
def findByUrl (db : List ThreatIntelDBRec) (url : List Char) : Option ThreatIntelDBRec :=
  db.find? (fun r => r.source_url == url)

/-- One `setattr` of the update loop (lines 149-151) for a nullable column:
the incoming value overwrites only when it is non-null. -/
def keepNonNull {α : Type} (new old : Option α) : Option α :=
  match new with
  | some v => some v
  | none => old

/-- The update branch (lines 145-152): every key of `item.dict()` except
`id` with a non-null value is written onto the existing row (the required
string/enum/bool/list fields of the model are never null, so they always
overwrite), then `scraped_date` is set to `datetime.utcnow()` (`now`). -/
def updateExisting (now : Nat) (existing : ThreatIntelDBRec) (item : ThreatIntelItem) :
    ThreatIntelDBRec :=
  { existing with
    title := item.title
    description := item.description
    protocol_name := keepNonNull item.protocol_name existing.protocol_name
    risk_level := item.risk_level
    source_url := item.source_url
    source_name := item.source_name
    published_date := keepNonNull item.published_date existing.published_date
    tags := item.tags
    amount_lost := keepNonNull item.amount_lost existing.amount_lost
    attack_type := keepNonNull item.attack_type existing.attack_type
    blockchain := keepNonNull item.blockchain existing.blockchain
    severity_score := keepNonNull item.severity_score existing.severity_score
    is_verified := item.is_verified
    additional_data := keepNonNull item.additional_data existing.additional_data
    scraped_date := now }

/-- Timestamp gate of the update branch (line 144) applied to one stored
record: update only when the candidate's scrape timestamp is strictly newer. -/
def mergeItem (now : Nat) (existing : ThreatIntelDBRec) (item : ThreatIntelItem) :
    ThreatIntelDBRec :=
  if item.scraped_date > existing.scraped_date then updateExisting now existing item
  else existing

/-- Apply an update to the first record with the given URL (the row the
`.first()` query returned). -/
def updateFirst (db : List ThreatIntelDBRec) (url : List Char)
    (f : ThreatIntelDBRec → ThreatIntelDBRec) : List ThreatIntelDBRec :=
  match db with
  | [] => []
  | r :: t => if r.source_url == url then f r :: t else r :: updateFirst t url f

/-- The new-row branch (lines 157-175), `db.add(db_item)`. -/
def newRecord (now : Nat) (source_name : List Char) (item : ThreatIntelItem) :
    ThreatIntelDBRec :=
  { id := item_id item.source_url
    title := item.title
    description := item.description
    protocol_name := item.protocol_name
    risk_level := item.risk_level
    source_url := item.source_url
    source_name := source_name
    published_date := item.published_date
    scraped_date := now
    tags := item.tags
    amount_lost := item.amount_lost
    attack_type := item.attack_type
    blockchain := item.blockchain
    severity_score := item.severity_score
    is_verified := item.is_verified
    additional_data := item.additional_data }

/-- The per-item loop of `_save_items_to_db` (lines 133-177) inside one
session.  `base` is the committed corpus; `cur` carries pending updates to
persisted rows (visible to later queries through the identity map); `adds`
carries pending inserts (not visible: `autoflush=False`); `fails it = true`
means the write for `it` raises.  A raise anywhere returns the committed
`base` (the `except` branch: `db.rollback()` then re-`raise`). -/
def saveItemsGo (now : Nat) (fails : ThreatIntelItem → Bool) (commit_fails : Bool)
    (source_name : List Char) (base : List ThreatIntelDBRec) :
    List ThreatIntelItem → List ThreatIntelDBRec → List ThreatIntelDBRec → Nat →
    List ThreatIntelDBRec × Except (List Char) Nat
  | [], cur, adds, n =>
      if commit_fails then (base, .error (("commit failed").data))
      else (cur ++ adds, .ok n)
  | it :: rest, cur, adds, n =>
      if fails it then (base, .error (("write failed").data))
      else
        match findByUrl cur it.source_url with
        | some existing =>
            if it.scraped_date > existing.scraped_date then
              saveItemsGo now fails commit_fails source_name base rest
                (updateFirst cur it.source_url (fun r => updateExisting now r it))
                adds (n + 1)
            else saveItemsGo now fails commit_fails source_name base rest cur adds n
        | none =>
            saveItemsGo now fails commit_fails source_name base rest cur
              (adds ++ [newRecord now source_name it]) (n + 1)

/-- `ScraperManager._save_items_to_db` (lines 127-189): returns the corpus
observable after the call together with either the saved count
(`db.commit()` succeeded) or the surfaced error (rolled back, re-raised). -/
def save_items_to_db (now : Nat) (fails : ThreatIntelItem → Bool) (commit_fails : Bool)
    (source_name : List Char) (db : List ThreatIntelDBRec) (items : List ThreatIntelItem) :
    List ThreatIntelDBRec × Except (List Char) Nat :=
  saveItemsGo now fails commit_fails source_name db items db [] 0

/-- A concrete candidate used to instantiate the ingestion theorems. -/
def sampleItem : ThreatIntelItem :=
  { id := none
    title := ("Aave exploit").data
    description := ("drained funds").data
    protocol_name := some (("Aave").data)
    risk_level := .high
    source_url := ("https://rekt.news/aave").data
    source_name := ("Rekt News").data
    published_date := none
    scraped_date := 5
    tags := [("exploit").data]
    amount_lost := some 10000000
    attack_type := none
    blockchain := none
    severity_score := some 8
    is_verified := false
    additional_data := some [] }

/-- A concrete stored corpus record with the same source URL as `sampleItem`
and the same stored scrape timestamp. -/
def sampleRec : ThreatIntelDBRec :=
  { id := ("https://rekt.news/aave").data
    title := ("Aave exploit").data
    description := ("drained funds").data
    protocol_name := some (("Aave").data)
    risk_level := .high
    source_url := ("https://rekt.news/aave").data
    source_name := ("Rekt News").data
    published_date := some 3
    scraped_date := 5
    tags := [("exploit").data]
    amount_lost := some 10000000
    attack_type := some (("flash loan").data)
    blockchain := none
    severity_score := some 8
    is_verified := false
    additional_data := some [] }

end DefiGuard

namespace DefiGuard

/-- The ten decimal digit characters, the concrete extension of regex `\\d`
over the inputs quantified below. -/
def digitChars : List Char := ("0123456789").data

end DefiGuard

/- Batteries marks the rational-number operations `@[irreducible]`; concrete
evaluation of the embedded functions (witnesses and counterexamples below)
needs them to unfold. -/
attribute [local semireducible] Rat.add Rat.mul Rat.inv Rat.sub

namespace DefiGuard

/-! ## Helper lemmas -/

theorem keepNonNull_none {α : Type} (o : Option α) : keepNonNull none o = o := rfl

theorem keepNonNull_some {α : Type} (v : α) (o : Option α) :
    keepNonNull (some v) o = some v := rfl

end DefiGuard

namespace DefiGuard

/-- C10: with a loss amount of exactly 0, `assess_risk_level` takes the same
keyword-fallback path as with no amount at all (`if amount_lost:` is false
for `0.0`), so the two results coincide for every title, description and
keyword list. -/
theorem C10_zero_amount_as_absent (kws : List (List Char)) (t d : List Char) :
    assess_risk_level (some 0) kws t d = assess_risk_level none kws t d := by
  simp [assess_risk_level]

/-- C6 counterexample: risk is not monotonic in the loss amount.  With title
"exploit", a loss of 50000 (below the medium threshold, so the keyword path
fires) is assessed critical, while the larger loss 200000 is assessed only
medium. -/
theorem C6_counterexample :
    assess_risk_level (some 50000) [] (("exploit").data) [] = RiskLevel.critical
    ∧ assess_risk_level (some 200000) [] (("exploit").data) [] = RiskLevel.medium
    ∧ (50000 : ℚ) < 200000
    ∧ RiskLevel.rank RiskLevel.medium < RiskLevel.rank RiskLevel.critical := by
  refine ⟨by decide, by decide, by norm_num, by decide⟩

/-- C6 amended: once both amounts are at least the 100000 medium threshold
(where the amount-based branch of `assess_risk_level` actually decides), the
assessed risk level is monotonic non-decreasing in the amount, and the
thresholds act as stated: ≥ 10000000 critical, ≥ 1000000 high, ≥ 100000
medium.  Below 100000 the code falls through to the keyword classes, which
can exceed the amount-based level, so monotonicity across that boundary
fails (see the counterexample). -/
theorem C6_amended (a b : ℚ) (kws : List (List Char)) (t d : List Char)
    (ha : 100000 ≤ a) (hab : a ≤ b) :
    RiskLevel.rank (assess_risk_level (some a) kws t d)
      ≤ RiskLevel.rank (assess_risk_level (some b) kws t d)
    ∧ (10000000 ≤ b → assess_risk_level (some b) kws t d = RiskLevel.critical)
    ∧ (1000000 ≤ b → b < 10000000 → assess_risk_level (some b) kws t d = RiskLevel.high)
    ∧ (b < 1000000 → assess_risk_level (some b) kws t d = RiskLevel.medium) := by
  have hb : (100000 : ℚ) ≤ b := le_trans ha hab
  have ha0 : a ≠ 0 := by intro h; rw [h] at ha; norm_num at ha
  have hb0 : b ≠ 0 := by intro h; rw [h] at hb; norm_num at hb
  unfold assess_risk_level
  refine ⟨?_, ?_, ?_, ?_⟩ <;>
    · simp only [ha0, hb0, if_true, ne_eq, not_false_eq_true, ite_true]
      split_ifs <;> intros <;> simp_all [RiskLevel.rank] <;> linarith

/-- C6 amended, witnessed at amounts 150000 ≤ 20000000. -/
theorem C6_amended_witness :
    RiskLevel.rank (assess_risk_level (some 150000) [] [] [])
      ≤ RiskLevel.rank (assess_risk_level (some 20000000) [] [] [])
    ∧ (10000000 ≤ (20000000 : ℚ) →
        assess_risk_level (some 20000000) [] [] [] = RiskLevel.critical)
    ∧ ((1000000 : ℚ) ≤ 20000000 → (20000000 : ℚ) < 10000000 →
        assess_risk_level (some 20000000) [] [] [] = RiskLevel.high)
    ∧ ((20000000 : ℚ) < 1000000 →
        assess_risk_level (some 20000000) [] [] [] = RiskLevel.medium) :=
  C6_amended 150000 20000000 [] [] [] (by norm_num) (by norm_num)

/-- C1: when the stored record's scrape timestamp is not strictly older than
the candidate's, the ingestion of that candidate leaves the corpus (and in
particular the stored record) completely unchanged and counts no save;
re-ingesting an identical candidate with the same scrape timestamp is
therefore idempotent on the corpus record. -/
theorem C1_stale_candidate_noop (now : Nat) (fails : ThreatIntelItem → Bool)
    (sn : List Char) (db : List ThreatIntelDBRec) (item : ThreatIntelItem)
    (r : ThreatIntelDBRec) (hf : fails item = false)
    (hfind : findByUrl db item.source_url = some r)
    (hts : ¬ item.scraped_date > r.scraped_date) :
    save_items_to_db now fails false sn db [item] = (db, Except.ok 0) := by
  simp [save_items_to_db, saveItemsGo, hf, hfind, hts]

/-- C1 witnessed: `sampleItem` has the same scrape timestamp as the stored
`sampleRec`, and saving it leaves the one-record corpus unchanged. -/
theorem C1_witness :
    save_items_to_db 9 (fun _ => false) false (("Rekt News").data)
      [sampleRec] [sampleItem] = ([sampleRec], Except.ok 0) :=
  C1_stale_candidate_noop 9 (fun _ => false) (("Rekt News").data) [sampleRec]
    sampleItem sampleRec rfl (by decide) (by decide)

/-- C2: a strictly newer candidate is merged by `updateExisting`; the stored
identifier survives, the stored scrape timestamp becomes the merge time, each
null candidate field keeps the stored value, each non-null optional field and
every required field of the candidate overwrites the stored one, and no other
column exists to change. -/
theorem C2_null_preserving_merge (now : Nat) (r : ThreatIntelDBRec)
    (item : ThreatIntelItem) (h : item.scraped_date > r.scraped_date) :
    mergeItem now r item = updateExisting now r item
    ∧ (updateExisting now r item).id = r.id
    ∧ (updateExisting now r item).scraped_date = now
    ∧ (item.protocol_name = none →
        (updateExisting now r item).protocol_name = r.protocol_name)
    ∧ (∀ v, item.protocol_name = some v →
        (updateExisting now r item).protocol_name = some v)
    ∧ (item.published_date = none →
        (updateExisting now r item).published_date = r.published_date)
    ∧ (∀ v, item.published_date = some v →
        (updateExisting now r item).published_date = some v)
    ∧ (item.amount_lost = none →
        (updateExisting now r item).amount_lost = r.amount_lost)
    ∧ (∀ v, item.amount_lost = some v →
        (updateExisting now r item).amount_lost = some v)
    ∧ (item.attack_type = none →
        (updateExisting now r item).attack_type = r.attack_type)
    ∧ (∀ v, item.attack_type = some v →
        (updateExisting now r item).attack_type = some v)
    ∧ (item.blockchain = none →
        (updateExisting now r item).blockchain = r.blockchain)
    ∧ (∀ v, item.blockchain = some v →
        (updateExisting now r item).blockchain = some v)
    ∧ (item.severity_score = none →
        (updateExisting now r item).severity_score = r.severity_score)
    ∧ (∀ v, item.severity_score = some v →
        (updateExisting now r item).severity_score = some v)
    ∧ (item.additional_data = none →
        (updateExisting now r item).additional_data = r.additional_data)
    ∧ (∀ v, item.additional_data = some v →
        (updateExisting now r item).additional_data = some v)
    ∧ (updateExisting now r item).title = item.title
    ∧ (updateExisting now r item).description = item.description
    ∧ (updateExisting now r item).risk_level = item.risk_level
    ∧ (updateExisting now r item).source_url = item.source_url
    ∧ (updateExisting now r item).source_name = item.source_name
    ∧ (updateExisting now r item).tags = item.tags
    ∧ (updateExisting now r item).is_verified = item.is_verified := by
  refine ⟨if_pos h, rfl, rfl, ?_, ?_, ?_, ?_, ?_, ?_, ?_, ?_, ?_, ?_, ?_, ?_,
    ?_, ?_, rfl, rfl, rfl, rfl, rfl, rfl, rfl⟩ <;>
    · intros h0
      try intro h1
      simp_all [updateExisting, keepNonNull]

/-- C2 witnessed: merging `sampleItem` with its timestamp advanced past
`sampleRec`'s; its null `attack_type` keeps the stored value and its non-null
`amount_lost` overwrites. -/
theorem C2_witness :
    mergeItem 9 sampleRec { sampleItem with scraped_date := 7 }
      = updateExisting 9 sampleRec { sampleItem with scraped_date := 7 }
    ∧ (updateExisting 9 sampleRec { sampleItem with scraped_date := 7 }).attack_type
      = sampleRec.attack_type
    ∧ (updateExisting 9 sampleRec { sampleItem with scraped_date := 7 }).amount_lost
      = some 10000000 := by
  have h := C2_null_preserving_merge 9 sampleRec
    { sampleItem with scraped_date := 7 } (by decide)
  exact ⟨h.1, h.2.2.2.2.2.2.2.2.2.1 rfl,
    h.2.2.2.2.2.2.2.2.1 10000000 rfl⟩

/-- Rollback lemma: whatever the session state reached so far, if some
remaining item's write raises, or the final commit raises, the loop ends in
the `except` branch: the observable corpus is the committed `base` and the
error is surfaced. -/
theorem saveItemsGo_rollback (now : Nat) (fails : ThreatIntelItem → Bool)
    (cf : Bool) (sn : List Char) (base : List ThreatIntelDBRec) :
    ∀ (items : List ThreatIntelItem) (cur adds : List ThreatIntelDBRec) (n : Nat),
    ((∃ it ∈ items, fails it = true) ∨ cf = true) →
    ∃ e, saveItemsGo now fails cf sn base items cur adds n = (base, Except.error e) := by
  intro items
  induction items with
  | nil =>
      intro cur adds n h
      rcases h with h | h
      · simp at h
      · exact ⟨("commit failed").data, by simp [saveItemsGo, h]⟩
  | cons it rest ih =>
      intro cur adds n h
      by_cases hit : fails it = true
      · exact ⟨("write failed").data, by simp [saveItemsGo, hit]⟩
      · have hrest : (∃ x ∈ rest, fails x = true) ∨ cf = true := by
          rcases h with ⟨x, hx, hfx⟩ | h
          · rcases List.mem_cons.1 hx with rfl | hx'
            · exact absurd hfx hit
            · exact Or.inl ⟨x, hx', hfx⟩
          · exact Or.inr h
        rw [Bool.not_eq_true] at hit
        cases hfind : findByUrl cur it.source_url with
        | some existing =>
            by_cases hts : it.scraped_date > existing.scraped_date
            · rcases ih (updateFirst cur it.source_url (fun r => updateExisting now r it))
                adds (n + 1) hrest with ⟨e, he⟩
              exact ⟨e, by simp [saveItemsGo, hit, hfind, hts, he]⟩
            · rcases ih cur adds n hrest with ⟨e, he⟩
              exact ⟨e, by simp [saveItemsGo, hit, hfind, hts, he]⟩
        | none =>
            rcases ih cur (adds ++ [newRecord now sn it]) (n + 1) hrest with ⟨e, he⟩
            exact ⟨e, by simp [saveItemsGo, hit, hfind, he]⟩

/-- C3: the batch is one unit of work.  If any item's database write raises,
or the final commit raises, the whole batch is rolled back — the observable
corpus equals the corpus before the call, so no candidate of the batch is
partially applied — and the error is surfaced to the caller. -/
theorem C3_batch_atomic (now : Nat) (fails : ThreatIntelItem → Bool) (cf : Bool)
    (sn : List Char) (db : List ThreatIntelDBRec) (items : List ThreatIntelItem)
    (h : (∃ it ∈ items, fails it = true) ∨ cf = true) :
    (save_items_to_db now fails cf sn db items).1 = db
    ∧ ∃ e, (save_items_to_db now fails cf sn db items).2 = Except.error e := by
  rcases saveItemsGo_rollback now fails cf sn db items db [] 0 h with ⟨e, he⟩
  unfold save_items_to_db
  rw [he]
  exact ⟨rfl, e, rfl⟩

/-- C3 witnessed: a two-item batch whose second write fails is rolled back
entirely; the first item's insert is not applied. -/
theorem C3_witness :
    (save_items_to_db 9 (fun it => it.source_url == ("https://rekt.news/aave").data)
        false (("Rekt News").data) []
        [{ sampleItem with source_url := ("https://rekt.news/other").data },
         sampleItem]).1 = []
    ∧ ∃ e, (save_items_to_db 9
        (fun it => it.source_url == ("https://rekt.news/aave").data)
        false (("Rekt News").data) []
        [{ sampleItem with source_url := ("https://rekt.news/other").data },
         sampleItem]).2 = Except.error e :=
  C3_batch_atomic 9 (fun it => it.source_url == ("https://rekt.news/aave").data)
    false (("Rekt News").data) []
    [{ sampleItem with source_url := ("https://rekt.news/other").data }, sampleItem]
    (Or.inl ⟨sampleItem, by simp, by decide⟩)

/-- A whole-word regex match at a position is in particular a prefix match. -/
theorem wwAt_starts (p : List Char) (prev : Option Char) (s : List Char)
    (h : wwAt p prev s = true) : starts p s = true := by
  cases p with
  | nil => simp [wwAt] at h
  | cons c0 t =>
      simp only [wwAt, Bool.and_eq_true] at h
      exact h.1.2

/-- A prefix match somewhere in the suffix scan is a substring occurrence. -/
theorem wwSearchAux_hasSub (p : List Char) :
    ∀ (s : List Char) (prev : Option Char), wwSearchAux p prev s = true →
      hasSub s p = true := by
  intro s
  induction s with
  | nil => intro prev h; simp [wwSearchAux] at h
  | cons c t ih =>
      intro prev h
      simp only [wwSearchAux, Bool.or_eq_true] at h
      rcases h with h | h
      · simp [hasSub, wwAt_starts p prev (c :: t) h]
      · simp [hasSub, ih (some c) h]

/-- A whole-word occurrence implies a plain substring occurrence. -/
theorem wwSearch_hasSub (p s : List Char) (h : wwSearch p s = true) :
    hasSub s p = true :=
  wwSearchAux_hasSub p s none h

/-- `insertByLen` only rearranges: membership is preserved. -/
theorem mem_insertByLen (x y : List Char) (l : List (List Char)) :
    y ∈ insertByLen x l ↔ y = x ∨ y ∈ l := by
  induction l with
  | nil => simp [insertByLen]
  | cons z zs ih =>
      simp only [insertByLen]
      split_ifs with h
      · simp [List.mem_cons]
      · simp only [List.mem_cons, ih]
        tauto

/-- `sortByLenDesc` permutes the list: membership is preserved. -/
theorem mem_sortByLenDesc (y : List Char) (l : List (List Char)) :
    y ∈ sortByLenDesc l ↔ y ∈ l := by
  induction l with
  | nil => simp [sortByLenDesc]
  | cons z zs ih =>
      simp only [sortByLenDesc, mem_insertByLen, List.mem_cons, ih]

/-- C7 counterexample: the fallback classifier does not require whole-word
boundaries, and does not check the title first.  The title "Aaveness rally"
contains no whole-word occurrence of any protocol ("aave" is followed by a
word character), yet the title substring pass returns "Aave"; and with title
"Aaves" (which contains "aave" as a substring) and description
"compound exploited", the whole-word pass over the full text wins first and
returns "Compound", not "Aave". -/
theorem C7_counterexample :
    fallback_classification (("Aaveness rally").data) [] = some (("Aave").data)
    ∧ wwSearch (("aave").data)
        (lowerAll ((("Aaveness rally").data) ++ (' ' :: []))) = false
    ∧ fallback_classification (("Aaves").data) (("compound exploited").data)
        = some (("Compound").data)
    ∧ hasSub (lowerAll (("Aaves").data)) (("aave").data) = true := by
  refine ⟨by decide, by decide, by decide, by decide⟩

/-- C7 amended: the fallback classifier searches the known-protocol list by
descending name length, first requiring whole-word boundaries over the
combined title+description text, and only then falling back to a plain
substring search of the title alone.  Given "Aave exploit drains $10M" it
returns "Aave"; when no known protocol occurs even as a plain substring of
the combined text or of the title, it returns no protocol. -/
theorem C7_amended :
    fallback_classification (("Aave exploit drains $10M").data) []
      = some (("Aave").data)
    ∧ (∀ title description : List Char,
        (∀ p ∈ known_protocols,
          hasSub (lowerAll (title ++ (' ' :: description))) p = false
          ∧ hasSub (lowerAll title) p = false) →
        fallback_classification title description = none) := by
  refine ⟨by decide, ?_⟩
  intro title description h
  unfold fallback_classification
  have h1 : (sortByLenDesc known_protocols).find?
      (fun p => wwSearch p (lowerAll (title ++ (' ' :: description)))) = none := by
    rw [List.find?_eq_none]
    intro p hp hww
    have hmem := (mem_sortByLenDesc p known_protocols).1 hp
    have := wwSearch_hasSub p (lowerAll (title ++ (' ' :: description))) hww
    rw [(h p hmem).1] at this
    exact Bool.false_ne_true this
  have h2 : (sortByLenDesc known_protocols).find?
      (fun p => hasSub (lowerAll title) p) = none := by
    rw [List.find?_eq_none]
    intro p hp hsub
    have hmem := (mem_sortByLenDesc p known_protocols).1 hp
    rw [(h p hmem).2] at hsub
    exact Bool.false_ne_true hsub
  simp only [h1, h2]

/-- C7 amended, witnessed: no protocol occurs in "hello world", so the
fallback returns none. -/
theorem C7_amended_witness :
    fallback_classification (("hello").data) (("world").data) = none :=
  C7_amended.2 (("hello").data) (("world").data) (by decide)

/-- C8 counterexample: validation accepts "Zorbit", a name that is on no
known-protocol rule at all — it is not in the list, matches no substring or
short-alias rule, and contains no DeFi-indicator keyword — purely because it
is a title-cased token longer than 3 characters (line 167 of the source).
The claim, which allows acceptance of unknown names only through the
DeFi-indicator rule, is therefore false. -/
theorem C8_counterexample :
    validate_protocol (("Zorbit").data) = some (("Zorbit").data)
    ∧ (∀ ind ∈ defi_indicators,
        hasSub (protocol_clean (("Zorbit").data)) ind = false)
    ∧ known_protocols.contains (protocol_clean (("Zorbit").data)) = false
    ∧ (∀ k ∈ known_protocols, loopMatch (protocol_clean (("Zorbit").data)) k = false)
    ∧ (∀ sf ∈ special_cases,
        (hasSub (protocol_clean (("Zorbit").data)) sf.1
          && known_protocols.contains sf.2) = false) := by
  refine ⟨by decide, by decide, by decide, by decide, by decide⟩

/-- C8 amended: for a non-empty name other than the NONE/NULL sentinels,
validation rejects (returns no protocol) exactly when every rule fails: the
exact known-list match, the per-known-protocol substring rule, the
short-alias rule, the DeFi-indicator rule (which requires no capitalization),
and additionally the capitalized-token rule, which accepts any title-cased
name longer than 3 characters other than None/The/This/That even with no
DeFi indicator. -/
theorem C8_amended (p : List Char)
    (hne : (p.isEmpty || upperAll p == ("NONE").data
        || upperAll p == ("NULL").data) = false) :
    validate_protocol p = none ↔
      known_protocols.contains (protocol_clean p) = false
      ∧ (∀ k ∈ known_protocols, loopMatch (protocol_clean p) k = false)
      ∧ (∀ sf ∈ special_cases,
          (hasSub (protocol_clean p) sf.1 && known_protocols.contains sf.2) = false)
      ∧ (∀ ind ∈ defi_indicators, hasSub (protocol_clean p) ind = false)
      ∧ ((pyIsTitle p && decide (p.length > 3)
          && !([("None").data, ("The").data, ("This").data,
                ("That").data].contains p)) = false) := by
  simp only [validate_protocol, hne, Bool.false_eq_true, if_false]
  by_cases h1 : known_protocols.contains (protocol_clean p) = true
  · rw [if_pos h1]
    constructor
    · intro h
      exact Option.noConfusion h
    · rintro ⟨h1', -⟩
      rw [h1] at h1'
      exact Bool.noConfusion h1'
  · have hne1 : ¬ known_protocols.contains (protocol_clean p) = true := h1
    rw [Bool.not_eq_true] at h1
    rw [if_neg hne1]
    cases hfind : known_protocols.find? (fun known => loopMatch (protocol_clean p) known) with
    | some k =>
        have hmem := List.mem_of_find?_eq_some hfind
        have hlm : loopMatch (protocol_clean p) k = true := List.find?_some hfind
        simp only [hfind]
        constructor
        · intro h
          exact Option.noConfusion h
        · rintro ⟨-, h2, -⟩
          rw [h2 k hmem] at hlm
          exact Bool.noConfusion hlm
    | none =>
        cases hsp : special_cases.find?
            (fun sf => hasSub (protocol_clean p) sf.1 && known_protocols.contains sf.2) with
        | some sf =>
            have hmem := List.mem_of_find?_eq_some hsp
            have hsf := List.find?_some hsp
            simp only [hfind, hsp]
            constructor
            · intro h
              exact Option.noConfusion h
            · rintro ⟨-, -, h3, -⟩
              rw [h3 sf hmem] at hsf
              exact Bool.noConfusion hsf
        | none =>
            by_cases h4 : (defi_indicators.any
                (fun ind => hasSub (protocol_clean p) ind)) = true
            · simp only [hfind, hsp, h4, if_true]
              constructor
              · intro h
                exact Option.noConfusion h
              · rintro ⟨-, -, -, h4', -⟩
                rcases List.any_eq_true.1 h4 with ⟨ind, hind, hhas⟩
                rw [h4' ind hind] at hhas
                exact Bool.noConfusion hhas
            · have hne4 := h4
              rw [Bool.not_eq_true] at h4
              by_cases h5 : (pyIsTitle p && decide (p.length > 3)
                  && !([("None").data, ("The").data, ("This").data,
                        ("That").data].contains p)) = true
              · simp only [hfind, hsp, h4, Bool.false_eq_true, if_false, h5, if_true]
                constructor
                · intro h
                  exact Option.noConfusion h
                · rintro ⟨-, -, -, -, h5'⟩
                  exact Bool.noConfusion h5'
              · have hne5 := h5
                rw [Bool.not_eq_true] at h5
                simp only [hfind, hsp, h4, h5, Bool.false_eq_true, if_false]
                constructor
                · intro _
                  refine ⟨h1, ?_, ?_, ?_, trivial⟩
                  · intro k hk
                    have hk' := List.find?_eq_none.1 hfind k hk
                    exact Bool.eq_false_iff.mpr hk'
                  · intro sf hsf
                    have hsf' := List.find?_eq_none.1 hsp sf hsf
                    exact Bool.eq_false_iff.mpr hsf'
                  · intro ind hind
                    by_contra hc
                    rw [Bool.not_eq_false] at hc
                    exact hne4 (List.any_eq_true.2 ⟨ind, hind, hc⟩)
                · intro _
                  trivial

/-- C8 amended, witnessed at the all-rules-fail name "qqq": rejected. -/
theorem C8_amended_witness : validate_protocol (("qqq").data) = none :=
  (C8_amended (("qqq").data) (by decide)).mpr
    ⟨by decide, by decide, by decide, by decide, by decide⟩

/-- C4 counterexample: the relevance formula and gate are as claimed, but the
"in particular" part fails: with title "Aave" and empty description the
fallback classifies protocol "Aave", no threat keyword occurs, the record is
rejected — yet confidence is 0.3 + 0 + 0.2 (title bonus) = 0.5, which does
not stay below the 0.4 threshold. -/
theorem C4_counterexample :
    (is_threat_intel_relevant (("Aave").data) []).is_relevant = false
    ∧ (is_threat_intel_relevant (("Aave").data) []).protocol = some (("Aave").data)
    ∧ threat_score (("Aave").data) [] = 0
    ∧ (is_threat_intel_relevant (("Aave").data) []).confidence = 1/2
    ∧ ¬ ((1 : ℚ)/2 < 4/10) := by
  refine ⟨by decide, by decide, by decide, by decide, by norm_num⟩

/-- C4 amended: the relevance decision computes
confidence = 0.3 + min(0.1 × threat-keyword-count, 0.5) + 0.2 when the
classified protocol name occurs (case-insensitively) in the title, and marks
the record relevant exactly when a protocol was classified, at least one
threat keyword occurs, and confidence ≥ 0.4.  A record with a classified
protocol but zero threat keywords is always rejected; its confidence is
0.3 < 0.4 without the title bonus but 0.5 ≥ 0.4 with it, so rejection comes
from the threat-indicator requirement, not from the confidence threshold. -/
theorem C4_amended (t d : List Char) :
    ((is_threat_intel_relevant t d).is_relevant = true ↔
      (is_threat_intel_relevant t d).protocol ≠ none
      ∧ 1 ≤ threat_score t d
      ∧ 4/10 ≤ (is_threat_intel_relevant t d).confidence)
    ∧ (∀ p, classify_protocol t d = some p →
        (is_threat_intel_relevant t d).confidence
          = 3/10 + min ((threat_score t d : ℚ) * (1/10)) (5/10)
            + (if hasSub (lowerAll t) (lowerAll p) = true then (2:ℚ)/10 else 0))
    ∧ (threat_score t d = 0 → (is_threat_intel_relevant t d).is_relevant = false)
    ∧ (classify_protocol t d = none →
        (is_threat_intel_relevant t d).is_relevant = false
        ∧ (is_threat_intel_relevant t d).confidence = 0) := by
  cases hcp : classify_protocol t d with
  | none =>
      refine ⟨?_, ?_, ?_, ?_⟩
      · simp [is_threat_intel_relevant, hcp]
      · intro p hp
        exact absurd hp (by simp)
      · intro _
        simp [is_threat_intel_relevant, hcp]
      · intro _
        simp [is_threat_intel_relevant, hcp]
  | some p =>
      refine ⟨?_, ?_, ?_, ?_⟩
      · simp only [is_threat_intel_relevant, hcp, Bool.and_eq_true, decide_eq_true_eq,
          ge_iff_le, ne_eq, Option.some_ne_none, not_false_eq_true, true_and]
        constructor
        · rintro ⟨hc, hs⟩
          exact ⟨hs, hc⟩
        · rintro ⟨hs, hc⟩
          exact ⟨hc, hs⟩
      · intro p' hp'
        have hpp : p = p' := Option.some.inj hp'
        subst hpp
        rw [min_def]
        simp [is_threat_intel_relevant, hcp]
      · intro hs0
        simp [is_threat_intel_relevant, hcp, hs0]
      · intro hnone
        exact absurd hnone (by simp)

/-- C4 amended, witnessed: "Aave exploit drains $10M" with description
"hack attack" is relevant (protocol classified, five keyword hits,
confidence 1.0 ≥ 0.4), while protocol-only "Aave" with zero keyword hits is
rejected. -/
theorem C4_amended_witness :
    (is_threat_intel_relevant (("Aave exploit drains $10M").data)
        (("hack attack").data)).is_relevant = true
    ∧ (is_threat_intel_relevant (("Aave").data) []).is_relevant = false :=
  ⟨(C4_amended (("Aave exploit drains $10M").data) (("hack attack").data)).1.mpr
      ⟨by decide, by decide, by decide⟩,
    (C4_amended (("Aave").data) []).2.2.1 (by decide)⟩

end DefiGuard

namespace DefiGuard

/-! ## Helper lemmas for the amount-extraction theorems -/

theorem starts_iff (n : List Char) : ∀ (h : List Char), starts n h = true ↔ n <+: h := by
  induction n with
  | nil => intro h; simp [starts]
  | cons a as ih =>
      intro h
      cases h with
      | nil => simp [starts]
      | cons b bs => simp [starts, List.cons_prefix_cons, ih bs, And.comm]

theorem hasSub_iff (hay needle : List Char) :
    hasSub hay needle = true ↔ needle <:+: hay := by
  induction hay with
  | nil =>
      simp [hasSub, List.isEmpty_iff]
  | cons c t ih =>
      simp [hasSub, starts_iff, ih, List.infix_cons_iff]

theorem singleton_infix_of_mem (a : Char) (l : List Char) (h : a ∈ l) :
    [a] <:+: l := by
  rcases List.append_of_mem h with ⟨s, t, rfl⟩
  exact ⟨s, t, by simp⟩

theorem takeWhile_all_append (p : Char → Bool) (ds : List Char) (x : Char) (r : List Char)
    (hall : ∀ c ∈ ds, p c = true) (hx : p x = false) :
    (ds ++ (x :: r)).takeWhile p = ds := by
  induction ds with
  | nil => simp [List.takeWhile_cons, hx]
  | cons d rest ih =>
      have hd := hall d (List.mem_cons_self _ _)
      simp only [List.cons_append, List.takeWhile_cons, hd, if_true]
      rw [ih (fun c hc => hall c (List.mem_cons_of_mem _ hc))]

theorem lowerAll_fix (s : List Char) (h : ∀ c ∈ s, Char.toLower c = c) :
    lowerAll s = s := by
  induction s with
  | nil => rfl
  | cons c t ih =>
      simp only [lowerAll, List.map_cons]
      rw [h c (List.mem_cons_self _ _)]
      have := ih (fun c hc => h c (List.mem_cons_of_mem _ hc))
      simp only [lowerAll] at this
      rw [this]

theorem isEmpty_false_of_ne_nil {l : List Char} (h : l ≠ []) : l.isEmpty = false := by
  cases l with
  | nil => exact absurd rfl h
  | cons a t => rfl

theorem digit_isDigitComma : ∀ c ∈ digitChars, isDigitComma c = true := by decide

theorem digit_toLower : ∀ c ∈ digitChars, Char.toLower c = c := by decide

theorem digit_ne_comma : ∀ c ∈ digitChars, (c != ',') = true := by decide

theorem digit_ne_dollar : ∀ c ∈ digitChars, (c == '$') = false := by decide

theorem digit_not_bmk : ∀ c ∈ digitChars, c ≠ 'b' ∧ c ≠ 'm' ∧ c ≠ 'k' := by decide

end DefiGuard

namespace DefiGuard

/-- Every amount the pattern scan accepts passed the `> 1000` guard. -/
theorem scanPatGo_gt (pat : AmtPat) :
    ∀ (fuel : Nat) (s : List Char) (v : ℚ), scanPatGo pat fuel s = some v → 1000 < v := by
  intro fuel
  induction fuel with
  | zero =>
      intro s v h
      cases s with
      | nil => simp [scanPatGo] at h
      | cons c t => simp [scanPatGo] at h
  | succ n ih =>
      intro s v h
      cases s with
      | nil => simp [scanPatGo] at h
      | cons c t =>
          simp only [scanPatGo] at h
          cases htm : tryMatchAt pat (c :: t) with
          | none =>
              rw [htm] at h
              exact ih t v h
          | some p =>
              obtain ⟨g0, vo⟩ := p
              cases vo with
              | none =>
                  rw [htm] at h
                  exact ih (t.drop (g0.length - 1)) v h
              | some v0 =>
                  simp only [htm] at h
                  by_cases hgt : v0 * multOf g0 > 1000
                  · rw [if_pos hgt] at h
                    rw [← Option.some.inj h]
                    exact hgt
                  · rw [if_neg hgt] at h
                    exact ih (t.drop (g0.length - 1)) v h

/-- Every amount `extract_amount_lost` returns passed the `> 1000` guard. -/
theorem extract_amount_lost_gt (text : List Char) (v : ℚ)
    (h : extract_amount_lost text = some v) : 1000 < v := by
  simp only [extract_amount_lost] at h
  cases h1 : scanPat AmtPat.million (lowerAll text) with
  | some a =>
      rw [h1] at h
      exact Option.some.inj h ▸ scanPatGo_gt _ _ _ _ h1
  | none =>
      rw [h1] at h
      cases h2 : scanPat AmtPat.billion (lowerAll text) with
      | some a =>
          rw [h2] at h
          exact Option.some.inj h ▸ scanPatGo_gt _ _ _ _ h2
      | none =>
          rw [h2] at h
          cases h3 : scanPat AmtPat.thousand (lowerAll text) with
          | some a =>
              rw [h3] at h
              exact Option.some.inj h ▸ scanPatGo_gt _ _ _ _ h3
          | none =>
              rw [h3] at h
              exact scanPatGo_gt _ _ _ _ h

theorem tryMatchAt_nodollar (pat : AmtPat) (c : Char) (t : List Char)
    (hc : (c == '$') = false) :
    tryMatchAt pat (c :: t) = tryBody pat (c :: t) := by
  simp [tryMatchAt, hc]

theorem tryMatchAt_dollar (pat : AmtPat) (t : List Char) :
    tryMatchAt pat ('$' :: t) = (tryBody pat t).map (fun p => ('$' :: p.1, p.2)) := by
  simp [tryMatchAt]

theorem scanPat_cons_none (pat : AmtPat) (c : Char) (t : List Char)
    (h : tryMatchAt pat (c :: t) = none) :
    scanPat pat (c :: t) = scanPat pat t := by
  simp only [scanPat, List.length_cons]
  simp only [scanPatGo, h]

theorem scanPat_cons_found (pat : AmtPat) (c : Char) (t : List Char) (g0 : List Char) (v : ℚ)
    (h : tryMatchAt pat (c :: t) = some (g0, some v)) (hgt : v * multOf g0 > 1000) :
    scanPat pat (c :: t) = some (v * multOf g0) := by
  simp only [scanPat, List.length_cons]
  simp only [scanPatGo, h]
  rw [if_pos hgt]

theorem parseVal_digits (ds : List Char) (hne : ds ≠ [])
    (hd : ∀ c ∈ ds, c ∈ digitChars) :
    parseVal ds none = some ((digitsToNat ds : ℚ)) := by
  simp only [parseVal]
  rw [List.filter_eq_self.mpr (fun c hc => digit_ne_comma c (hd c hc))]
  rw [isEmpty_false_of_ne_nil hne]
  rfl

/-- `tryBody` on a maximal digit run followed by a non-`[\d,]` character:
the captured number is exactly the run, and the rest of the pattern engages
the remainder. -/
theorem tryBody_split (pat : AmtPat) (ds : List Char) (x : Char) (r : List Char)
    (hne : ds ≠ []) (hall : ∀ c ∈ ds, isDigitComma c = true) (hx : isDigitComma x = false) :
    tryBody pat (ds ++ (x :: r)) =
      patBranch (sfxSpec pat)
        ((x :: r).drop (decCharsOf (decProbe (x :: r))).length)
        ds (decCharsOf (decProbe (x :: r))) (decProbe (x :: r)) := by
  have ht := takeWhile_all_append isDigitComma ds x r hall hx
  have he := isEmpty_false_of_ne_nil hne
  simp only [tryBody, ht, he, List.drop_left, Bool.false_eq_true, if_false]

end DefiGuard

namespace DefiGuard

theorem patBranch_some (spec : List Char × Char) (s3 run decChars : List Char)
    (dec : Option (Char × Char)) :
    patBranch (some spec) s3 run decChars dec = sfxBranch spec s3 run decChars dec := rfl

theorem sfxBranch_none (spec : List Char × Char) (s3 run decChars : List Char)
    (dec : Option (Char × Char)) (h : sfxMatch spec s3 = none) :
    sfxBranch spec s3 run decChars dec = none := by
  simp [sfxBranch, h]

theorem sfxBranch_some (spec : List Char × Char) (s3 run decChars tail2 : List Char)
    (dec : Option (Char × Char)) (h : sfxMatch spec s3 = some tail2) :
    sfxBranch spec s3 run decChars dec = some (run ++ decChars ++ tail2, parseVal run dec) := by
  simp [sfxBranch, h]

theorem multOf_of_million (g0 : List Char) (hb : 'b' ∉ g0)
    (hm : hasSub g0 (("million").data) = true) : multOf g0 = 1000000 := by
  have h1 : hasSub g0 (("billion").data) = false := by
    rw [Bool.eq_false_iff]
    intro hs
    exact hb (((hasSub_iff _ _).1 hs).subset (by decide))
  have h2 : hasSub g0 ['b'] = false := by
    rw [Bool.eq_false_iff]
    intro hs
    exact hb (((hasSub_iff _ _).1 hs).subset (by decide))
  simp [multOf, h1, h2, hm]

theorem multOf_of_thousand (g0 : List Char) (hb : 'b' ∉ g0) (hm : 'm' ∉ g0)
    (hk : hasSub g0 ['k'] = true) : multOf g0 = 1000 := by
  have h1 : hasSub g0 (("billion").data) = false := by
    rw [Bool.eq_false_iff]
    intro hs
    exact hb (((hasSub_iff _ _).1 hs).subset (by decide))
  have h2 : hasSub g0 ['b'] = false := by
    rw [Bool.eq_false_iff]
    intro hs
    exact hb (((hasSub_iff _ _).1 hs).subset (by decide))
  have h3 : hasSub g0 (("million").data) = false := by
    rw [Bool.eq_false_iff]
    intro hs
    exact hm (((hasSub_iff _ _).1 hs).subset (by decide))
  have h4 : hasSub g0 ['m'] = false := by
    rw [Bool.eq_false_iff]
    intro hs
    exact hm (((hasSub_iff _ _).1 hs).subset (by decide))
  simp [multOf, h1, h2, h3, h4, hk]

/-- On a digit string followed by a lone `k`, a suffixed pattern whose
suffix does not accept `k` matches at no position, so its scan returns
nothing. -/
theorem scanPat_digits_k_none (pat : AmtPat) (spec : List Char × Char)
    (hsp : sfxSpec pat = some spec) (hfail : sfxMatch spec ['k'] = none)
    (hbase : scanPat pat ['k'] = none) :
    ∀ ds : List Char, (∀ c ∈ ds, c ∈ digitChars) → scanPat pat (ds ++ ['k']) = none := by
  intro ds
  induction ds with
  | nil =>
      intro _
      simpa using hbase
  | cons d rest ih =>
      intro hd
      have hd' : ∀ c ∈ rest, c ∈ digitChars := fun c hc => hd c (List.mem_cons_of_mem _ hc)
      have hdd : d ∈ digitChars := hd d (List.mem_cons_self _ _)
      have htb : tryBody pat ((d :: rest) ++ ['k']) = none := by
        rw [tryBody_split pat (d :: rest) 'k' [] (by simp)
            (fun c hc => digit_isDigitComma c (hd c hc)) (by decide)]
        rw [show decProbe ('k' :: ([] : List Char)) = none from rfl]
        rw [show decCharsOf (none : Option (Char × Char)) = ([] : List Char) from rfl]
        simp only [List.length_nil, List.drop_zero, hsp, patBranch_some]
        exact sfxBranch_none spec _ _ _ _ hfail
      have htm : tryMatchAt pat (d :: (rest ++ ['k'])) = none := by
        rw [tryMatchAt_nodollar pat d (rest ++ ['k']) (digit_ne_dollar d hdd)]
        rw [← List.cons_append]
        exact htb
      have step := scanPat_cons_none pat d (rest ++ ['k']) htm
      rw [List.cons_append, step]
      exact ih hd'

end DefiGuard

namespace DefiGuard

/-- The million pattern, tried first, matches `"$<digits> million"` at
position 0 and yields the digits' value times 1000000. -/
theorem extract_million_general (ds : List Char) (hne : ds ≠ [])
    (hd : ∀ c ∈ ds, c ∈ digitChars) (hv : 1 ≤ digitsToNat ds) :
    extract_amount_lost ('$' :: (ds ++ (' ' :: ("million").data)))
      = some ((digitsToNat ds : ℚ) * 1000000) := by
  have hdc : ∀ c ∈ ds, isDigitComma c = true := fun c hc => digit_isDigitComma c (hd c hc)
  have hbody : tryBody .million (ds ++ (' ' :: ("million").data))
      = some (ds ++ (' ' :: ("million").data), some ((digitsToNat ds : ℚ))) := by
    rw [tryBody_split .million ds ' ' (("million").data) hne hdc (by decide)]
    rw [show decProbe (' ' :: ("million").data) = none from rfl]
    rw [show decCharsOf (none : Option (Char × Char)) = ([] : List Char) from rfl]
    simp only [List.length_nil, List.drop_zero]
    rw [show sfxSpec AmtPat.million = some ((("million").data), 'm') from rfl, patBranch_some]
    rw [sfxBranch_some _ _ _ _ (' ' :: ("million").data) _
      (show sfxMatch ((("million").data), 'm') (' ' :: ("million").data)
        = some (' ' :: ("million").data) from rfl)]
    rw [parseVal_digits ds hne hd]
    simp
  have htm : tryMatchAt .million ('$' :: (ds ++ (' ' :: ("million").data)))
      = some ('$' :: (ds ++ (' ' :: ("million").data)), some ((digitsToNat ds : ℚ))) := by
    rw [tryMatchAt_dollar, hbody]
    rfl
  have hbnotin : 'b' ∉ ('$' :: (ds ++ (' ' :: ("million").data))) := by
    intro hmem
    rcases List.mem_cons.1 hmem with h | h
    · exact absurd h (by decide)
    rcases List.mem_append.1 h with h | h
    · exact absurd rfl (digit_not_bmk 'b' (hd 'b' h)).1
    · exact absurd h (by decide)
  have hmsub : hasSub ('$' :: (ds ++ (' ' :: ("million").data))) (("million").data) = true := by
    rw [hasSub_iff]
    rw [show ('$' :: (ds ++ (' ' :: ("million").data)))
        = (('$' :: ds) ++ [' ']) ++ ("million").data from by simp]
    exact (List.suffix_append _ _).isInfix
  have hmult := multOf_of_million _ hbnotin hmsub
  have hvq : (1 : ℚ) ≤ (digitsToNat ds : ℚ) := by exact_mod_cast hv
  have hgt : (digitsToNat ds : ℚ)
      * multOf ('$' :: (ds ++ (' ' :: ("million").data))) > 1000 := by
    rw [hmult]
    nlinarith
  have hscan := scanPat_cons_found .million '$' (ds ++ (' ' :: ("million").data)) _ _ htm hgt
  rw [hmult] at hscan
  have hfix : lowerAll ('$' :: (ds ++ (' ' :: ("million").data)))
      = '$' :: (ds ++ (' ' :: ("million").data)) := by
    apply lowerAll_fix
    intro c hc
    rcases List.mem_cons.1 hc with rfl | hc2
    · decide
    rcases List.mem_append.1 hc2 with h | h
    · exact digit_toLower c (hd c h)
    · exact (by decide : ∀ x ∈ (' ' :: ("million").data), Char.toLower x = x) c h
  simp only [extract_amount_lost]
  rw [hfix, hscan]

end DefiGuard

namespace DefiGuard

/-- The thousand pattern matches `"<digits>k"` at position 0 after the
million and billion scans (tried earlier) find nothing, yielding the
digits' value times 1000 provided that clears the 1000 threshold. -/
theorem extract_k_general (ds : List Char) (hne : ds ≠ [])
    (hd : ∀ c ∈ ds, c ∈ digitChars) (hv : 2 ≤ digitsToNat ds) :
    extract_amount_lost (ds ++ ['k']) = some ((digitsToNat ds : ℚ) * 1000) := by
  have hdc : ∀ c ∈ ds, isDigitComma c = true := fun c hc => digit_isDigitComma c (hd c hc)
  obtain ⟨d, rest, rfl⟩ := List.exists_cons_of_ne_nil hne
  have hdd : d ∈ digitChars := hd d (List.mem_cons_self _ _)
  have hbody : tryBody .thousand ((d :: rest) ++ ['k'])
      = some ((d :: rest) ++ ['k'], some ((digitsToNat (d :: rest) : ℚ))) := by
    rw [tryBody_split .thousand (d :: rest) 'k' [] (by simp) hdc (by decide)]
    rw [show decProbe ('k' :: ([] : List Char)) = none from rfl]
    rw [show decCharsOf (none : Option (Char × Char)) = ([] : List Char) from rfl]
    simp only [List.length_nil, List.drop_zero]
    rw [show sfxSpec AmtPat.thousand = some ((("thousand").data), 'k') from rfl, patBranch_some]
    rw [sfxBranch_some _ _ _ _ (['k'] : List Char) _
      (show sfxMatch ((("thousand").data), 'k') ('k' :: ([] : List Char))
        = some ['k'] from rfl)]
    rw [parseVal_digits (d :: rest) (by simp) hd]
    simp
  have htm : tryMatchAt .thousand (d :: (rest ++ ['k']))
      = some ((d :: rest) ++ ['k'], some ((digitsToNat (d :: rest) : ℚ))) := by
    rw [tryMatchAt_nodollar .thousand d (rest ++ ['k']) (digit_ne_dollar d hdd)]
    rw [← List.cons_append]
    exact hbody
  have hbnotin : 'b' ∉ ((d :: rest) ++ ['k']) := by
    intro hmem
    rcases List.mem_append.1 hmem with h | h
    · exact absurd rfl (digit_not_bmk 'b' (hd 'b' h)).1
    · exact absurd h (by decide)
  have hmnotin : 'm' ∉ ((d :: rest) ++ ['k']) := by
    intro hmem
    rcases List.mem_append.1 hmem with h | h
    · exact absurd rfl (digit_not_bmk 'm' (hd 'm' h)).2.1
    · exact absurd h (by decide)
  have hksub : hasSub ((d :: rest) ++ ['k']) ['k'] = true := by
    rw [hasSub_iff]
    exact singleton_infix_of_mem 'k' _ (List.mem_append_right _ (by decide))
  have hmult := multOf_of_thousand _ hbnotin hmnotin hksub
  have hvq : (2 : ℚ) ≤ (digitsToNat (d :: rest) : ℚ) := by exact_mod_cast hv
  have hgt : (digitsToNat (d :: rest) : ℚ) * multOf ((d :: rest) ++ ['k']) > 1000 := by
    rw [hmult]
    nlinarith
  have hscan := scanPat_cons_found .thousand d (rest ++ ['k']) _ _ htm hgt
  rw [hmult] at hscan
  have hfix : lowerAll ((d :: rest) ++ ['k']) = (d :: rest) ++ ['k'] := by
    apply lowerAll_fix
    intro c hc
    rcases List.mem_append.1 hc with h | h
    · exact digit_toLower c (hd c h)
    · exact (by decide : ∀ x ∈ (['k'] : List Char), Char.toLower x = x) c h
  have hm_none := scanPat_digits_k_none .million ((("million").data), 'm') rfl rfl
    (by decide) (d :: rest) hd
  have hb_none := scanPat_digits_k_none .billion ((("billion").data), 'b') rfl rfl
    (by decide) (d :: rest) hd
  simp only [extract_amount_lost]
  rw [hfix]
  simp only [hm_none, hb_none]
  rw [List.cons_append, hscan]

end DefiGuard

namespace DefiGuard

/-- C5 counterexample: the source's pattern list runs million → billion →
thousand → bare, not billion-first as claimed.  On "$2 billion and $3
million" the code's million-first scan returns 3000000, while the
billion-first scan the claim describes would return 2000000000. -/
theorem C5_counterexample :
    extract_amount_lost (("$2 billion and $3 million").data) = some 3000000
    ∧ extract_amount_lost_specOrder (("$2 billion and $3 million").data)
        = some 2000000000
    ∧ (3000000 : ℚ) ≠ 2000000000 := by
  refine ⟨by decide, by decide, by norm_num⟩

/-- C5 amended: monetary-amount extraction scans the ordered pattern list
million → billion → thousand → bare numeral, applies the pattern's
multiplier, rejects scaled results ≤ 1000, and returns the first acceptable
match: `"$<N> million"` yields N × 1000000 (N ≥ 1), `"<N>k"` yields
N × 1000 once that clears the 1000 threshold (N ≥ 2), every returned amount
exceeds 1000, and the million pattern wins over a billion mention present in
the same text. -/
theorem C5_amended :
    (∀ ds : List Char, ds ≠ [] → (∀ c ∈ ds, c ∈ digitChars) →
      1 ≤ digitsToNat ds →
      extract_amount_lost ('$' :: (ds ++ (' ' :: ("million").data)))
        = some ((digitsToNat ds : ℚ) * 1000000))
    ∧ (∀ ds : List Char, ds ≠ [] → (∀ c ∈ ds, c ∈ digitChars) →
      2 ≤ digitsToNat ds →
      extract_amount_lost (ds ++ ['k']) = some ((digitsToNat ds : ℚ) * 1000))
    ∧ (∀ (text : List Char) (v : ℚ), extract_amount_lost text = some v → 1000 < v)
    ∧ extract_amount_lost (("$2 billion and $3 million").data) = some 3000000 :=
  ⟨extract_million_general, extract_k_general, extract_amount_lost_gt, by decide⟩

/-- C5 amended, witnessed at `"$5 million"` and `"7k"`. -/
theorem C5_amended_witness :
    extract_amount_lost (("$5 million").data) = some 5000000
    ∧ extract_amount_lost (("7k").data) = some 7000 := by
  constructor
  · have h := C5_amended.1 ['5'] (by decide) (by decide) (by decide)
    rw [show digitsToNat ['5'] = 5 from rfl] at h
    norm_num at h
    exact h
  · have h := C5_amended.2.1 ['7'] (by decide) (by decide) (by decide)
    rw [show digitsToNat ['7'] = 7 from rfl] at h
    norm_num at h
    exact h

/-- C9 counterexample: extraction enforces no 1e12 sanity ceiling.  The text
"$2000 billion" extracts to 2 × 10¹², which is not below 1e12.  (The ceiling
exists only in `DataValidator.validate_amount`, which no scraper calls.) -/
theorem C9_counterexample :
    extract_amount_lost (("$2000 billion").data) = some 2000000000000
    ∧ ¬ ((2000000000000 : ℚ) < 1000000000000) := by
  refine ⟨by decide, by norm_num⟩

/-- C9 amended: every amount monetary-amount extraction returns is strictly
greater than 1000 — hence strictly positive — but no upper sanity ceiling is
enforced by extraction, so the 1e12 bound of the claim does not hold (see
the counterexample). -/
theorem C9_amended (text : List Char) (v : ℚ)
    (h : extract_amount_lost text = some v) : 0 < v ∧ 1000 < v := by
  have h1 := extract_amount_lost_gt text v h
  exact ⟨by linarith, h1⟩

/-- C9 amended, witnessed at `"$5 million"`. -/
theorem C9_amended_witness : (0 : ℚ) < 5000000 ∧ (1000 : ℚ) < 5000000 :=
  C9_amended (("$5 million").data) 5000000 (by decide)

end DefiGuard
